import Mathlib

/-!
# A shallow embedding of the scan-and-select pipeline of `src/app.py`

This file embeds, in Lean, the pipeline of the `line-bot-stock` repository:
quote selection (`fetch_change_pct_and_volume`), the technical indicators
(`sma`, `ema`, `rsi`, `macd`, `stochastic`, `bollinger`, `atr`, `donchian`),
the screening gates (`ta_pass`, `pick_rising_stocks_v3`), universe
resolution (`load_watchlist`/`normalize_code`), grouping/ranking,
pagination (`format_grouped_messages`) and the push step of
`do_scan_and_push` — and proves theorems checking the specification's
claims against this embedding.

Modelling conventions:
* Python floats are modelled by exact rationals.  The float `nan`
  (the source produces it via `math.nan` and `x or math.nan`) is the
  explicit sentinel constructor `RVal.nan`.  All comparisons with `nan`
  are `False` in Python and `false` here.
* Python exceptions reachable inside the per-instrument `try` block of
  `pick_rising_stocks_v3` (`ZeroDivisionError`, the `ValueError` of
  `max()`/`min()` on an empty slice) are modelled by `Option`: `none`
  stands for a raised exception, which the caller turns into a rejection
  (`except Exception: continue`).
* Network results (the parsed JSON series, the fetched daily bars, the
  registry code lists) are inputs of the modelled functions.
* Python `int` is `ℤ`, indices are `ℕ`.
-/

/-- A Python float as it occurs in `app.py`: a real (rational) number or
the `nan` sentinel. -/
inductive RVal where
  | nan : RVal
  | fin : ℚ → RVal
deriving DecidableEq, Repr, Inhabited

/-- Float addition; `nan` propagates. -/
def RVal.add : RVal → RVal → RVal
  | fin a, fin b => fin (a + b)
  | _, _ => nan

/-- Float subtraction; `nan` propagates. -/
def RVal.sub : RVal → RVal → RVal
  | fin a, fin b => fin (a - b)
  | _, _ => nan

/-- Float multiplication; `nan` propagates. -/
def RVal.mul : RVal → RVal → RVal
  | fin a, fin b => fin (a * b)
  | _, _ => nan

/-- Float negation; `nan` propagates. -/
def RVal.neg : RVal → RVal
  | fin a => fin (-a)
  | nan => nan

/-- Python `abs`; `nan` propagates. -/
def RVal.rabs : RVal → RVal
  | fin a => fin |a|
  | nan => nan

/-- Python `<` on floats: any comparison with `nan` is `False`. -/
def RVal.blt : RVal → RVal → Bool
  | fin a, fin b => decide (a < b)
  | _, _ => false

/-- Python `<=` on floats: any comparison with `nan` is `False`. -/
def RVal.ble : RVal → RVal → Bool
  | fin a, fin b => decide (a ≤ b)
  | _, _ => false

/-- Python `>` on floats. -/
def RVal.bgt (a b : RVal) : Bool := RVal.blt b a

/-- Python `>=` on floats. -/
def RVal.bge (a b : RVal) : Bool := RVal.ble b a

/-- Python `==` on floats: `nan == x` is `False`. -/
def RVal.beq : RVal → RVal → Bool
  | fin a, fin b => decide (a = b)
  | _, _ => false

/-- Is this value the `nan` sentinel (`math.isnan`)? -/
def RVal.isnan : RVal → Bool
  | nan => true
  | _ => false

/-- Python `max(a, b)`: keeps `a` unless `b > a` (so `max(nan, x) = nan`). -/
def RVal.pymax (a b : RVal) : RVal := if RVal.blt a b then b else a

/-- Python `min(a, b)`: keeps `a` unless `b < a` (so `min(nan, x) = nan`). -/
def RVal.pymin (a b : RVal) : RVal := if RVal.blt b a then b else a

/-- Python float division.  CPython raises `ZeroDivisionError` whenever the
divisor is the float `0.0` (even for a `nan` dividend); a `nan` divisor or
dividend otherwise yields `nan`.  `none` models the raised exception. -/
def RVal.div : RVal → RVal → Option RVal
  | fin a, fin b => if b = 0 then none else some (fin (a / b))
  | nan, fin b => if b = 0 then none else some nan
  | _, nan => some nan

/-- Division by a list length the source has already guarded to be
positive (`s/len(q)` under `if q`, `sum(window)/len(window)` under
`len(window) >= 2`); never raises there. -/
def RVal.divPos (x : RVal) (k : ℕ) : RVal :=
  match x with
  | fin a => fin (a / (k : ℚ))
  | nan => nan

/-- Python `max(list)`: `None` on an empty list models the raised
`ValueError`; otherwise folds keeping the current value unless the next
element is strictly greater (`nan`-faithful). -/
def pyMaxList : List RVal → Option RVal
  | [] => none
  | x :: rest => some (rest.foldl (fun cur y => if RVal.blt cur y then y else cur) x)

/-- Python `min(list)`; see `pyMaxList`. -/
def pyMinList : List RVal → Option RVal
  | [] => none
  | x :: rest => some (rest.foldl (fun cur y => if RVal.blt y cur then y else cur) x)

/-- `list[-1]` in the source, always used on nonempty lists there. -/
def lastR (l : List RVal) : RVal := l.getLastD RVal.nan

/-- Python `round(x)` (round-half-to-even) for a rational. -/
def pyRoundHalfEven (x : ℚ) : ℤ :=
  let f : ℤ := ⌊x⌋
  let r : ℚ := x - (f : ℚ)
  if r < 1 / 2 then f
  else if 1 / 2 < r then f + 1
  else if f % 2 = 0 then f else f + 1

/-- Python `round(x, 2)` of the source (banker's rounding to 2 decimals). -/
def pyRound2 (x : ℚ) : ℚ := ((pyRoundHalfEven (x * 100) : ℤ) : ℚ) / 100

/-- Python `int(q)` (truncation toward zero), used on `sum(vols)/len(vols)`. -/
def ratTrunc (q : ℚ) : ℤ := if q < 0 then ⌈q⌉ else ⌊q⌋

/-! ## Indicator Engine (`sma`, `ema`, `rsi`, `macd`, `stochastic`,
`bollinger`, `atr`, `donchian` of `app.py`) -/

/-- Loop body of `sma(arr, n)`: running sum `s` and window `q`; appends
`s/len(q) if q else math.nan`.  Note that the source never emits `nan`
for a window that is merely shorter than `n`: the average is taken over
the available window. -/
def smaAux (n : ℤ) : RVal → List RVal → List RVal → List RVal
  | _, _, [] => []
  | s, q, x :: rest =>
    let s1 := s.add x
    let q1 := q ++ [x]
    let s2 := if n < (q1.length : ℤ) then s1.sub (q1.headD RVal.nan) else s1
    let q2 := if n < (q1.length : ℤ) then q1.tail else q1
    (if q2.isEmpty then RVal.nan else s2.divPos q2.length) :: smaAux n s2 q2 rest

/-- `sma(arr, n)` of the source. -/
def sma (arr : List RVal) (n : ℤ) : List RVal := smaAux n (RVal.fin 0) [] arr

/-- Loop body of `ema`: `prev = x if prev is None else (x - prev)*k + prev`. -/
def emaGo (k : ℚ) : Option RVal → List RVal → List RVal
  | _, [] => []
  | prev, x :: rest =>
    let p := match prev with
      | none => x
      | some pv => ((x.sub pv).mul (RVal.fin k)).add pv
    p :: emaGo k (some p) rest

/-- `ema(arr, n)` of the source; computing the smoothing factor
`k = 2/(n+1)` raises `ZeroDivisionError` when `n = -1`. -/
def ema (arr : List RVal) (n : ℤ) : Option (List RVal) :=
  if (n : ℚ) + 1 = 0 then none
  else some (emaGo (2 / ((n : ℚ) + 1)) none arr)

/-- Loop body of `rsi(closes, period)`.  `i` is the enumeration index,
`gains`/`losses` the running accumulators, the `Option RVal` is `prev`.
In the branch `rs = math.inf` (no losses) the source's
`100 - 100/(1+rs)` is exactly the float `100.0`, emitted directly here
to keep values rational.  Divisions go through `RVal.div`, so a zero
`period` raises (`none`) exactly as in Python. -/
def rsiGo (period : ℤ) : ℕ → RVal → RVal → Option RVal → List RVal → Option (List RVal)
  | _, _, _, _, [] => some []
  | i, gains, losses, none, c :: rest => do
    let out ← rsiGo period (i + 1) gains losses (some c) rest
    return RVal.nan :: out
  | i, gains, losses, some prev, c :: rest =>
    let change := c.sub prev
    let up := RVal.pymax change (RVal.fin 0)
    let down := (RVal.pymin change (RVal.fin 0)).neg
    if (i : ℤ) ≤ period then
      let g := gains.add up
      let l := losses.add down
      if (i : ℤ) = period ∧ RVal.bgt l (RVal.fin 0) = true then do
        let a ← g.div (RVal.fin (period : ℚ))
        let b ← l.div (RVal.fin (period : ℚ))
        let rs ← a.div b
        let v ← (RVal.fin 100).div ((RVal.fin 1).add rs)
        let out ← rsiGo period (i + 1) g l (some c) rest
        return ((RVal.fin 100).sub v) :: out
      else do
        let out ← rsiGo period (i + 1) g l (some c) rest
        return RVal.nan :: out
    else do
      let g1 ← ((gains.mul (RVal.fin ((period : ℚ) - 1))).add up).div (RVal.fin (period : ℚ))
      let l1 ← ((losses.mul (RVal.fin ((period : ℚ) - 1))).add down).div (RVal.fin (period : ℚ))
      if RVal.bgt l1 (RVal.fin 0) = true then do
        let rs ← g1.div l1
        let v ← (RVal.fin 100).div ((RVal.fin 1).add rs)
        let out ← rsiGo period (i + 1) g1 l1 (some c) rest
        return ((RVal.fin 100).sub v) :: out
      else do
        let out ← rsiGo period (i + 1) g1 l1 (some c) rest
        return (RVal.fin 100) :: out

/-- `rsi(closes, period)` of the source. -/
def rsi (closes : List RVal) (period : ℤ) : Option (List RVal) :=
  rsiGo period 0 (RVal.fin 0) (RVal.fin 0) none closes

/-- `macd(closes, 12, 26, 9)` of the source (the source always calls it
with the default periods).  The guard `f is not None and s is not None`
of the list comprehension is always true — `ema` yields one float per
element — so `macd_line` subtracts directly. -/
def macd (closes : List RVal) : Option (List RVal × List RVal × List RVal) := do
  let ema_fast ← ema closes 12
  let ema_slow ← ema closes 26
  let macd_line := (ema_fast.zip ema_slow).map fun p => p.1.sub p.2
  let signal_line ← ema (macd_line.map fun x => if x.isnan then RVal.fin 0 else x) 9
  let hist := (macd_line.zip signal_line).map fun p => p.1.sub p.2
  return (macd_line, signal_line, hist)

/-- `%K` loop of `stochastic`: for each index `i`,
`left = max(0, i-k_period+1)`, `hh = max(highs[left:i+1])`,
`ll = min(lows[left:i+1])`, then `50.0 if hh==ll else
(closes[i]-ll)/(hh-ll)*100.0`.  An empty slice (`k_period <= 0`) raises. -/
def stochK (highs lows closes : List RVal) (kp : ℤ) : Option (List RVal) :=
  (List.range closes.length).mapM fun (i : ℕ) => do
    let left := (max 0 ((i : ℤ) - kp + 1)).toNat
    let hh ← pyMaxList ((highs.take (i + 1)).drop left)
    let ll ← pyMinList ((lows.take (i + 1)).drop left)
    if RVal.beq hh ll then
      return RVal.fin 50
    else do
      let r ← ((closes.getD i RVal.nan).sub ll).div (hh.sub ll)
      return r.mul (RVal.fin 100)

/-- `stochastic(highs, lows, closes, k_period, d_period)` of the source. -/
def stochastic (highs lows closes : List RVal) (kp dp : ℤ) :
    Option (List RVal × List RVal) := do
  let k ← stochK highs lows closes kp
  return (k, sma k dp)

/-- Rolling-variance loop of `bollinger`: maintains the window, appends
`nan` while `len(window) < 2`, else the variance
`sum((x-m)**2)/len(window)`.  The source then takes `var ** 0.5`; since
that square root is irrational in general, the model keeps the variance
and the band comparison is decided exactly by `bbandsUpperGe`. -/
def bollVarAux (n : ℤ) : List RVal → List RVal → List RVal
  | _, [] => []
  | window, c :: rest =>
    let w1 := window ++ [c]
    let w2 := if n < (w1.length : ℤ) then w1.tail else w1
    let v :=
      if w2.length < 2 then RVal.nan
      else
        let m := (w2.foldl RVal.add (RVal.fin 0)).divPos w2.length
        ((w2.map fun x => (x.sub m).mul (x.sub m)).foldl RVal.add (RVal.fin 0)).divPos w2.length
    v :: bollVarAux n w2 rest

/-- `bollinger(closes, n, mult)` of the source, returning the middle band
`ma` and the rolling variance list (standing for the squared `stds`). -/
def bollinger (closes : List RVal) (n : ℤ) : List RVal × List RVal :=
  (sma closes n, bollVarAux n [] closes)

/-- `math.isnan(upper[-1])` of the source: `upper = m + mult*std` is `nan`
iff the middle band or the deviation (variance) is `nan`. -/
def bbandsUpperIsNan (m varv : RVal) : Bool := m.isnan || varv.isnan

/-- Decides the source's `h[-1] >= upper[-1]`, i.e.
`x ≥ m + mult * sqrt(var)`, exactly over rationals (for the reachable
case `var ≥ 0`); as in Python, any `nan` operand makes it `false`. -/
def bbandsUpperGe (x m varv : RVal) (mult : ℚ) : Bool :=
  match x, m, varv with
  | RVal.fin xq, RVal.fin mq, RVal.fin vq =>
    let d := xq - mq
    if 0 ≤ mult then decide (0 ≤ d) && decide (mult ^ 2 * vq ≤ d ^ 2)
    else decide (0 ≤ d) || decide (d ^ 2 ≤ mult ^ 2 * vq)
  | _, _, _ => false

/-- True-range loop of `atr`: first bar's range is `h - l`, later bars
take `max(h-l, abs(h-prev_close), abs(l-prev_close))`. -/
def atrTrAux : Option RVal → List (RVal × RVal × RVal) → List RVal
  | _, [] => []
  | prevClose, (h, l, c) :: rest =>
    let tr := match prevClose with
      | none => h.sub l
      | some pc => RVal.pymax (RVal.pymax (h.sub l) ((h.sub pc).rabs)) ((l.sub pc).rabs)
    tr :: atrTrAux (some c) rest

/-- `atr(highs, lows, closes, period)` of the source. -/
def atr (highs lows closes : List RVal) (period : ℤ) : List RVal :=
  sma (atrTrAux none ((highs.zip (lows.zip closes)).map fun p => (p.1, p.2.1, p.2.2))) period

/-- `donchian(highs, lows, n)` of the source: rolling max of highs and
min of lows over the trailing `n` bars; `n <= 0` raises on the empty
slice. -/
def donchian (highs lows : List RVal) (n : ℤ) : Option (List RVal × List RVal) := do
  let up ← (List.range highs.length).mapM fun (i : ℕ) =>
    pyMaxList ((highs.take (i + 1)).drop (max 0 ((i : ℤ) - n + 1)).toNat)
  let dn ← (List.range highs.length).mapM fun (i : ℕ) =>
    pyMinList ((lows.take (i + 1)).drop (max 0 ((i : ℤ) - n + 1)).toNat)
  return (up, dn)

/-! ## Data model: bars, configuration, picks, groups -/

/-- One daily bar as built by `fetch_daily_bars`
(`dict(o=…, h=…, l=…, c=…, v=int(…))`); `o/h/l/c` can be `nan` (the
source writes `opens[i] or math.nan` etc.), `v` is a Python int. -/
structure Bar where
  o : RVal
  h : RVal
  l : RVal
  c : RVal
  v : ℤ
deriving DecidableEq, Repr, Inhabited

/-- The merged configuration dictionary of `build_ta_profile`: the
threshold profile of `load_thresholds` plus the indicator-gate
parameters.  Field names follow the source's keys; the two `*_RATIO`
keys of the source are named `*_MULT` here (`VOL_SPIKE_RATIO`,
`YDAY_BREAKOUT_RATIO` in `app.py`). -/
structure Cfg where
  MIN_CHANGE_PCT : ℚ
  MIN_VOLUME : ℤ
  USE_TODAY_VOL_SPIKE : Bool
  VOL_MA_N : ℤ
  VOL_SPIKE_MULT : ℚ
  USE_YDAY_VOL_BREAKOUT : Bool
  YDAY_BREAKOUT_MULT : ℚ
  USE_PRICE_ABOVE_SMA : Bool
  SMA_N : ℤ
  USE_PRICE_ABOVE_EMA : Bool
  EMA_N : ℤ
  USE_RSI_RANGE : Bool
  RSI_N : ℤ
  RSI_MIN : ℚ
  RSI_MAX : ℚ
  USE_MACD_POSITIVE : Bool
  USE_MACD_GOLDEN : Bool
  USE_STOCH : Bool
  STO_K : ℤ
  STO_D : ℤ
  USE_BBANDS_BREAK : Bool
  BB_N : ℤ
  BB_MULT : ℚ
  USE_ATR_PCT : Bool
  ATR_N : ℤ
  ATR_MIN_PCT : ℚ
  USE_DONCHIAN : Bool
  DON_N : ℤ
deriving DecidableEq, Repr

/-- One accepted instrument: the tuple `(code, chg, today_v)` appended by
`pick_rising_stocks_v3`. -/
structure Pick where
  code : String
  chg : ℚ
  vol : ℤ
deriving DecidableEq, Repr, Inhabited

/-- The grouped result dict `{"LISTED": [], "OTC": [], "ETF": []}`. -/
structure Grouped where
  LISTED : List Pick
  OTC : List Pick
  ETF : List Pick
deriving DecidableEq, Repr, Inhabited

/-! ## Screening Engine: `ta_pass` -/

/-- Sequencing of the source's early-`return False` gate blocks: an
earlier raised exception (`none`) or `return False` short-circuits. -/
def gateSeq (r : Option Bool) (k : Unit → Option Bool) : Option Bool :=
  match r with
  | none => none
  | some false => some false
  | some true => k ()

/-- The `USE_PRICE_ABOVE_SMA` block of `ta_pass`:
`if math.isnan(sm[-1]) or c[-1] <= sm[-1]: return False`. -/
def gatePriceAboveSma (c : List RVal) (ta : Cfg) : Option Bool :=
  if ta.USE_PRICE_ABOVE_SMA then
    let sm := sma c ta.SMA_N
    if (lastR sm).isnan || RVal.ble (lastR c) (lastR sm) then some false else some true
  else some true

/-- The `USE_PRICE_ABOVE_EMA` block of `ta_pass`. -/
def gatePriceAboveEma (c : List RVal) (ta : Cfg) : Option Bool :=
  if ta.USE_PRICE_ABOVE_EMA then
    match ema c ta.EMA_N with
    | none => none
    | some em =>
      if (lastR em).isnan || RVal.ble (lastR c) (lastR em) then some false else some true
  else some true

/-- The `USE_RSI_RANGE` block of `ta_pass`:
`if math.isnan(rv) or rv < RSI_MIN or rv > RSI_MAX: return False`. -/
def gateRsi (c : List RVal) (ta : Cfg) : Option Bool :=
  if ta.USE_RSI_RANGE then
    match rsi c ta.RSI_N with
    | none => none
    | some r =>
      let rv := lastR r
      if rv.isnan || RVal.blt rv (RVal.fin ta.RSI_MIN) || RVal.bgt rv (RVal.fin ta.RSI_MAX) then
        some false
      else some true
  else some true

/-- The MACD block of `ta_pass`. -/
def gateMacd (c : List RVal) (ta : Cfg) : Option Bool :=
  if ta.USE_MACD_POSITIVE || ta.USE_MACD_GOLDEN then
    match macd c with
    | none => none
    | some (m, s, hist) =>
      let mv := lastR m
      let sv := lastR s
      let hv := lastR hist
      if ta.USE_MACD_POSITIVE && !(RVal.bgt mv (RVal.fin 0) && RVal.bgt hv (RVal.fin 0)) then
        some false
      else if ta.USE_MACD_GOLDEN && !(RVal.bgt mv sv) then some false
      else some true
  else some true

/-- The `USE_STOCH` (KD) block of `ta_pass`:
`if math.isnan(kv) or math.isnan(dv) or not (kv > dv and kv > 50): return False`. -/
def gateStoch (h l c : List RVal) (ta : Cfg) : Option Bool :=
  if ta.USE_STOCH then
    match stochastic h l c ta.STO_K ta.STO_D with
    | none => none
    | some (k, d) =>
      let kv := lastR k
      let dv := lastR d
      if kv.isnan || dv.isnan || !(RVal.bgt kv dv && RVal.bgt kv (RVal.fin 50)) then some false
      else some true
  else some true

/-- The `USE_BBANDS_BREAK` block of `ta_pass`:
`if math.isnan(mid[-1]) or math.isnan(up[-1]): return False;
if not (c[-1] >= mid[-1] and h[-1] >= up[-1]): return False`. -/
def gateBbands (h c : List RVal) (ta : Cfg) : Option Bool :=
  if ta.USE_BBANDS_BREAK then
    let b := bollinger c ta.BB_N
    let mid := b.1
    let vars := b.2
    if (lastR mid).isnan || bbandsUpperIsNan (lastR mid) (lastR vars) then some false
    else if !(RVal.bge (lastR c) (lastR mid) &&
              bbandsUpperGe (lastR h) (lastR mid) (lastR vars) ta.BB_MULT) then some false
    else some true
  else some true

/-- The `USE_ATR_PCT` block of `ta_pass`. -/
def gateAtr (h l c : List RVal) (ta : Cfg) : Option Bool :=
  if ta.USE_ATR_PCT then
    let a := atr h l c ta.ATR_N
    if (lastR a).isnan || RVal.beq (lastR c) (RVal.fin 0) then some false
    else
      match (lastR a).div (lastR c) with
      | none => none
      | some r =>
        if RVal.blt (r.mul (RVal.fin 100)) (RVal.fin ta.ATR_MIN_PCT) then some false
        else some true
  else some true

/-- The `USE_DONCHIAN` block of `ta_pass`: `if h[-1] < up[-1]: return False`. -/
def gateDonchian (h l : List RVal) (ta : Cfg) : Option Bool :=
  if ta.USE_DONCHIAN then
    match donchian h l ta.DON_N with
    | none => none
    | some ud =>
      if RVal.blt (lastR h) (lastR ud.1) then some false else some true
  else some true

/-- `ta_pass(bars, ta)` of the source: `if not bars or len(bars)<3:
return False`, then the gate blocks in source order; `some b` is a
normal return, `none` a raised exception. -/
def ta_pass (bars : List Bar) (ta : Cfg) : Option Bool :=
  if bars.length < 3 then some false
  else
    let h := bars.map Bar.h
    let l := bars.map Bar.l
    let c := bars.map Bar.c
    gateSeq (gatePriceAboveSma c ta) fun _ =>
    gateSeq (gatePriceAboveEma c ta) fun _ =>
    gateSeq (gateRsi c ta) fun _ =>
    gateSeq (gateMacd c ta) fun _ =>
    gateSeq (gateStoch h l c ta) fun _ =>
    gateSeq (gateBbands h c ta) fun _ =>
    gateSeq (gateAtr h l c ta) fun _ =>
    gateDonchian h l ta

/-! ## Screening Engine: volume features and the per-instrument decision
of `pick_rising_stocks_v3` -/

/-- The Python slice `bars[-(n+1):-1]` (with Python's clamping rules for
a possibly negative computed start index). -/
def pySliceUpToLast (l : List Bar) (n : ℤ) : List Bar :=
  let len : ℤ := l.length
  let s : ℤ := -(n + 1)
  let start : ℤ := if s < 0 then max (len + s) 0 else min s len
  let stop : ℤ := max (len - 1) 0
  (l.take stop.toNat).drop start.toNat

/-- `compute_volume_features(bars, n)` of the source: returns
`(today_close, today_vol, vol_ma_n(excluding today), yday_vol,
today_high, yday_high)`. -/
def compute_volume_features (bars : List Bar) (n : ℤ) : RVal × ℤ × ℤ × ℤ × RVal × RVal :=
  if bars.isEmpty then (RVal.nan, 0, 0, 0, RVal.nan, RVal.nan)
  else
    let today := bars.getLastD default
    let yday := if 2 ≤ bars.length then bars.getD (bars.length - 2) default
                else { o := RVal.nan, h := RVal.nan, l := RVal.nan, c := RVal.nan, v := 0 }
    let hist := if 1 < bars.length then pySliceUpToLast bars n else []
    let vols := (hist.map Bar.v).filter fun x => x ≠ 0
    let vol_ma_n : ℤ :=
      if vols.isEmpty then 0
      else ratTrunc (((vols.foldl (· + ·) 0 : ℤ) : ℚ) / (vols.length : ℚ))
    (today.c, today.v, vol_ma_n, yday.v, today.h, yday.h)

/-- `prev_c` of `pick_rising_stocks_v3`:
`bars[-2]["c"] if len(bars)>=2 and not math.isnan(bars[-2]["c"]) else None`. -/
def prevClose (bars : List Bar) : Option ℚ :=
  if 2 ≤ bars.length then
    match (bars.getD (bars.length - 2) default).c with
    | RVal.fin q => some q
    | RVal.nan => none
  else none

/-- The body of the per-instrument `try` block of
`pick_rising_stocks_v3`, given the fetched daily bars: `none` is
`continue` (skip/reject, including any caught exception), `some p` the
appended pick `(code, chg, today_v)`. -/
def pickDecision (code : String) (bars : List Bar) (th : Cfg) : Option Pick :=
  if bars.isEmpty then none
  else
    let f := compute_volume_features bars th.VOL_MA_N
    let today_v := f.2.1
    let vol_ma_n := f.2.2.1
    let yday_v := f.2.2.2.1
    let today_h := f.2.2.2.2.1
    let yday_h := f.2.2.2.2.2
    match f.1 with
    | RVal.nan => none
    | RVal.fin today_c =>
      match prevClose bars with
      | none => none
      | some prev_c =>
        if prev_c = 0 then none
        else
          let chg := pyRound2 ((today_c - prev_c) / prev_c * 100)
          if chg < th.MIN_CHANGE_PCT ∨ today_v < th.MIN_VOLUME then none
          else if th.USE_TODAY_VOL_SPIKE = true ∧ 0 < vol_ma_n ∧
                  (today_v : ℚ) < th.VOL_SPIKE_MULT * (vol_ma_n : ℚ) then none
          else if th.USE_YDAY_VOL_BREAKOUT = true ∧ 0 < vol_ma_n ∧
                  ¬(th.YDAY_BREAKOUT_MULT * (vol_ma_n : ℚ) ≤ (yday_v : ℚ) ∨
                    (today_h.isnan = false ∧ yday_h.isnan = false ∧
                     RVal.bgt today_h yday_h = true)) then none
          else
            match ta_pass bars th with
            | some true => some { code := code, chg := chg, vol := today_v }
            | _ => none

/-! ## Universe Resolver: `normalize_code`, `load_watchlist`,
`classify_code` — string helpers mirror the Python string methods over
the character list, so that everything reduces in the kernel. -/

/-- Python `len(s)` (counts code points, as Lean counts `Char`s). -/
def pyLen (s : String) : ℕ := s.data.length

/-- Python `str.upper()` (the identifiers here are ASCII). -/
def pyUpper (s : String) : String := ⟨s.data.map Char.toUpper⟩

/-- Python `str.strip()`. -/
def pyStrip (s : String) : String :=
  ⟨((s.data.dropWhile Char.isWhitespace).reverse.dropWhile Char.isWhitespace).reverse⟩

/-- Python `str.rstrip()`. -/
def pyRstrip (s : String) : String :=
  ⟨(s.data.reverse.dropWhile Char.isWhitespace).reverse⟩

/-- Python `s.endswith(suf)`. -/
def strEndsWith (s suf : String) : Bool := suf.data.isSuffixOf s.data

/-- Helper of `pySplit`: accumulates the current token (reversed). -/
def splitCharAux (sep : Char) : List Char → List Char → List String
  | [], acc => [⟨acc.reverse⟩]
  | c :: rest, acc =>
    if c = sep then ⟨acc.reverse⟩ :: splitCharAux sep rest []
    else splitCharAux sep rest (c :: acc)

/-- Python `s.split(sep)` for a one-character separator
(`"".split(",") == [""]`, no merging of empty tokens). -/
def pySplit (s : String) (sep : Char) : List String := splitCharAux sep s.data []

/-- `re.fullmatch(r"\d{4}", s)`: exactly four ASCII digits. -/
def isFourDigits (s : String) : Bool :=
  s.data.length = 4 && s.data.all Char.isDigit

/-- `normalize_code(token)` of the source.  Note that for a suffixed
token it returns the bare 4-digit core, not the suffixed form. -/
def normalize_code (token : String) : Option String :=
  let t := pyUpper (pyStrip token)
  if t = "" then none
  else if strEndsWith t ".TW" || strEndsWith t ".TWO" then
    let core := (pySplit t '.').headD ""
    if isFourDigits core then some core else none
  else if isFourDigits t then some t else none

/-- One token of the explicit-list branch of `load_watchlist`:
strip/upper, skip empties, `normalize_code`, then append
`nc if nc.endswith((".TW",".TWO")) else nc + ".TW"`. -/
def explicitToken (c0 : String) : Option String :=
  let c := pyUpper (pyStrip c0)
  if c = "" then none
  else
    match normalize_code c with
    | none => none
    | some nc =>
      some (if strEndsWith nc ".TW" || strEndsWith nc ".TWO" then nc else nc ++ ".TW")

/-- The explicit-list branch of `load_watchlist` (`WATCHLIST != "ALL"`,
lines 95–104): builds `out` token by token — without any
de-duplication — and falls back to `["2330.TW"]` when `out` is empty. -/
def load_watchlist_explicit (wl : String) : List String :=
  let out := (pySplit wl ',').filterMap explicitToken
  if out.isEmpty then ["2330.TW"] else out

/-- The de-duplication stage of the `ALL` branch of `load_watchlist`
(lines 150–157): keep the first occurrence of each upper-cased
`.TW`/`.TWO` code, tracked in `seen`. -/
def dedupLoop : List String → List String → List String
  | [], _ => []
  | c :: rest, seen =>
    let u := pyUpper c
    if (strEndsWith u ".TW" || strEndsWith u ".TWO") && !(seen.contains u) then
      u :: dedupLoop rest (u :: seen)
    else dedupLoop rest seen

/-- End of the `ALL` branch of `load_watchlist`: de-duplicate the merged
registry codes, falling back to the fixed safety list when empty. -/
def load_watchlist_all_dedup (codes : List String) : List String :=
  let uniq := dedupLoop codes []
  if uniq.isEmpty then ["2330.TW", "2317.TW", "2454.TW", "2303.TW", "2412.TW"] else uniq

/-- `classify_code(code, etf_set)` of the source. -/
def classify_code (code : String) (etf_set : List String) : String :=
  let u := pyUpper code
  if etf_set.contains u then "ETF"
  else if strEndsWith u ".TWO" then "OTC"
  else "LISTED"

/-! ## Grouping and ranking -/

/-- The sort key of `out[k].sort(key=lambda x: x[1], reverse=True)`:
Python's stable sort in descending `chg` order keeps `a` before `b`
exactly when `b.chg ≤ a.chg` (ties keep input order). -/
def rankLe (a b : Pick) : Bool := decide (b.chg ≤ a.chg)

/-- The per-group ranking of `pick_rising_stocks_v3` (lines 502–503):
stable sort by change percent descending; volume is not consulted. -/
def rankSort (l : List Pick) : List Pick := l.mergeSort rankLe

/-- `pick_rising_stocks_v3(watchlist, th, etf_set)` with the network
fetch supplied as a function from code to daily bars. -/
def pick_rising_stocks_v3 (fetchBars : String → List Bar) (watchlist : List String)
    (th : Cfg) (etf_set : List String) : Grouped :=
  let step := fun (g : Grouped) (code : String) =>
    match pickDecision code (fetchBars code) th with
    | none => g
    | some p =>
      let bucket := classify_code code etf_set
      if bucket = "ETF" then { g with ETF := g.ETF ++ [p] }
      else if bucket = "OTC" then { g with OTC := g.OTC ++ [p] }
      else { g with LISTED := g.LISTED ++ [p] }
  let g := watchlist.foldl step ⟨[], [], []⟩
  ⟨rankSort g.LISTED, rankSort g.OTC, rankSort g.ETF⟩

/-! ## Reporter: `format_grouped_messages` -/

/-- Decimal digit string of a natural number. -/
def natStr (n : ℕ) : String := ⟨Nat.toDigits 10 n⟩

/-- Python `f"{x:.2f}"` for the (already 2-decimal) rational values the
source formats. -/
def fmt2 (q : ℚ) : String :=
  let c : ℤ := pyRoundHalfEven (q * 100)
  (if c < 0 then "-" else "") ++ natStr (c.natAbs / 100) ++ "." ++
    (if c.natAbs % 100 < 10 then "0" else "") ++ natStr (c.natAbs % 100)

/-- Helper of `fmtThousands`: walks the reversed digit list inserting a
comma before each group of three. -/
def commaRev : List Char → ℕ → List Char
  | [], _ => []
  | c :: rest, i =>
    if i % 3 = 0 ∧ i ≠ 0 then ',' :: c :: commaRev rest (i + 1)
    else c :: commaRev rest (i + 1)

/-- Python `f"{v:,}"`: thousands-grouped integer. -/
def fmtThousands (v : ℤ) : String :=
  (if v < 0 then "-" else "") ++ ⟨(commaRev (Nat.toDigits 10 v.natAbs).reverse 0).reverse⟩

/-- One formatted row of `fmt_rows`:
`f"{i+1}. {c}  漲幅 {chg:.2f}%  量 {vol:,}"`. -/
def fmt_row (i : ℕ) (p : Pick) : String :=
  natStr (i + 1) ++ ". " ++ p.code ++ "  漲幅 " ++ fmt2 p.chg ++ "%  量 " ++ fmtThousands p.vol

/-- `fmt_rows(rows)` of the source. -/
def fmt_rows (rows : List Pick) : List String :=
  rows.enum.map fun ip => fmt_row ip.1 ip.2

/-- The group header `f"【{title_date} 起漲清單】{emoji} {label}"`. -/
def mkHeader (title_date emoji label : String) : String :=
  "【" ++ title_date ++ " 起漲清單】" ++ emoji ++ " " ++ label

/-- The pagination loop of `format_grouped_messages`: before appending a
row, flush the page if the row count reached `max_lines` or the page
would exceed `max_chars`; each flushed page is `page.rstrip()`. -/
def pagLoop (header : String) (maxLines maxChars : ℤ) :
    List String → String → ℤ → List String
  | [], page, _ => [pyRstrip page]
  | line :: rest, page, count =>
    if maxLines ≤ count ∨ maxChars < (pyLen page : ℤ) + (pyLen line : ℤ) + 1 then
      pyRstrip page :: pagLoop header maxLines maxChars rest (header ++ "\n" ++ line ++ "\n") 1
    else
      pagLoop header maxLines maxChars rest (page ++ line ++ "\n") (count + 1)

/-- One group's pages in `format_grouped_messages`: groups with no rows
are skipped (`if not rows: continue`). -/
def groupPages (rows : List Pick) (header : String) (maxLines maxChars : ℤ) : List String :=
  let rs := fmt_rows rows
  if rs.isEmpty then [] else pagLoop header maxLines maxChars rs (header ++ "\n") 0

/-- `format_grouped_messages(grouped, title_date, max_lines, max_chars,
emoji_listed, emoji_otc, emoji_etf)` of the source. -/
def format_grouped_messages (g : Grouped) (title_date : String) (maxLines maxChars : ℤ)
    (emoji_listed emoji_otc emoji_etf : String) : List String :=
  groupPages g.LISTED (mkHeader title_date emoji_listed "上市") maxLines maxChars
    ++ groupPages g.OTC (mkHeader title_date emoji_otc "上櫃") maxLines maxChars
    ++ groupPages g.ETF (mkHeader title_date emoji_etf "ETF") maxLines maxChars

/-! ## Push step of `do_scan_and_push` (lines 540–549) -/

/-- The fallback text pushed when `msgs` is empty:
`f"【{now_s} 起漲清單】\n尚無符合條件的個股（或資料未更新）"`.  Note it
contains the timestamp and a no-matches notice but no thresholds. -/
def noPickMsg (now_s : String) : String :=
  "【" ++ now_s ++ " 起漲清單】\n尚無符合條件的個股（或資料未更新）"

/-- The delivery step of `do_scan_and_push`, given the rendered pages:
returns the list of pushed texts and the route's status string.  The
source keeps no state between invocations — there is no dedup store. -/
def pushStep (userId now_s : String) (msgs : List String) : List String × String :=
  if userId = "" then ([], "Missing LINE_USER_ID")
  else if msgs.isEmpty then ([noPickMsg now_s], "no-picks")
  else (msgs, "sent " ++ natStr msgs.length ++ " pages")

/-- The texts pushed over a sequence of invocations of
`do_scan_and_push` with the same user id; each run is `(now_s, msgs)`.
Runs are independent: the source holds no cross-run state. -/
def pushRuns (userId : String) (runs : List (String × List String)) : List (List String) :=
  runs.map fun r => (pushStep userId r.1 r.2).1

/-! ## Quote Fetcher: `fetch_change_pct_and_volume` -/

/-- The backward scan of the first selection loop: the last (highest
index) non-null close, together with its index in the full list. -/
def findBack : List (Option ℚ) → Option (ℕ × ℚ)
  | [] => none
  | c :: rest =>
    match findBack rest with
    | some iq => some (iq.1 + 1, iq.2)
    | none => c.map fun q => (0, q)

/-- `volumes[i] if i < len(volumes) else 0`, then `int(v or 0)`. -/
def volAt (volumes : List (Option ℤ)) (i : ℕ) : ℤ :=
  if i < volumes.length then (volumes.getD i none).getD 0 else 0

/-- The second selection loop of `fetch_change_pct_and_volume`: scan
backward starting at index `len(closes) - 2` — regardless of where the
last price was found — for the first non-null close. -/
def lastCloseScan (closes : List (Option ℚ)) : Option ℚ :=
  (findBack (closes.take (closes.length - 1))).map fun iq => iq.2

/-- The `for url in urls` loop of `fetch_change_pct_and_volume`: each
element of `series` is one URL's parsed `(closes, volumes)`; the state
`(last_close, last_price, last_volume)` persists across URLs, and the
loop breaks once `last_price is not None and last_close not in (None, 0)`. -/
def fetchLoop : List (List (Option ℚ) × List (Option ℤ)) →
    Option ℚ × Option ℚ × ℤ → Option ℚ × Option ℚ × ℤ
  | [], st => st
  | (closes, volumes) :: rest, st =>
    let lp1 :=
      match findBack closes with
      | some iq => (some iq.2, volAt volumes iq.1)
      | none => (st.2.1, st.2.2)
    let lc1 :=
      match lastCloseScan closes with
      | some q => some q
      | none => st.1
    if lp1.1.isSome ∧ lc1 ≠ none ∧ lc1 ≠ some 0 then (lc1, lp1.1, lp1.2)
    else fetchLoop rest (lc1, lp1.1, lp1.2)

/-- `fetch_change_pct_and_volume` of the source, over the parsed series
of its URL list: `(round(chg, 2), last_volume)`, or the `(0.0, 0)`
sentinel when no usable last-price/prior-close pair was found. -/
def fetch_change_pct_and_volume (series : List (List (Option ℚ) × List (Option ℤ))) : ℚ × ℤ :=
  match fetchLoop series (none, none, 0) with
  | (some lc, some lp, lv) =>
    if lc = 0 then (0, 0) else (pyRound2 ((lp - lc) / lc * 100), lv)
  | _ => (0, 0)

/-- Modelled from the spec (for comparison with `lastCloseScan`):
"Prior-close selection: continue scanning backward from the last-price
index; the first non-null close strictly before it is the prior close." -/
def specPriorClose (closes : List (Option ℚ)) : Option ℚ :=
  match findBack closes with
  | some iq => (findBack (closes.take iq.1)).map fun jq => jq.2
  | none => none

/-! ## Concrete inputs used by witnesses and counterexamples -/

/-- A bar whose four price fields all carry the same rational close. -/
def mkBarQ (q : ℚ) (v : ℤ) : Bar :=
  { o := RVal.fin q, h := RVal.fin q, l := RVal.fin q, c := RVal.fin q, v := v }

/-- The source's default "live" profile (`load_thresholds`/
`build_ta_profile` with an empty environment): every optional gate off. -/
def liveCfg : Cfg := {
  MIN_CHANGE_PCT := 1 / 2, MIN_VOLUME := 100000,
  USE_TODAY_VOL_SPIKE := false, VOL_MA_N := 5, VOL_SPIKE_MULT := 2,
  USE_YDAY_VOL_BREAKOUT := false, YDAY_BREAKOUT_MULT := 3 / 2,
  USE_PRICE_ABOVE_SMA := false, SMA_N := 20,
  USE_PRICE_ABOVE_EMA := false, EMA_N := 20,
  USE_RSI_RANGE := false, RSI_N := 14, RSI_MIN := 50, RSI_MAX := 80,
  USE_MACD_POSITIVE := false, USE_MACD_GOLDEN := false,
  USE_STOCH := false, STO_K := 9, STO_D := 3,
  USE_BBANDS_BREAK := false, BB_N := 20, BB_MULT := 2,
  USE_ATR_PCT := false, ATR_N := 14, ATR_MIN_PCT := 1,
  USE_DONCHIAN := false, DON_N := 20 }

/-- The spec's acceptance scenario: closes 100, 102, 101, 105 and
volumes 1000, 1200, 900, 3000, with thresholds 2.0 / 2000. -/
def scenarioBars : List Bar :=
  [mkBarQ 100 1000, mkBarQ 102 1200, mkBarQ 101 900, mkBarQ 105 3000]

/-- Thresholds of the spec's scenario (`minChange = 2.0`,
`minVolume = 2000`), all optional gates off. -/
def scenarioCfg : Cfg := { liveCfg with MIN_CHANGE_PCT := 2, MIN_VOLUME := 2000 }

/-- Three bars (closes 1, 1, 2) — far fewer than the 20 the SMA gate's
window asks for. -/
def smaShortBars : List Bar := [mkBarQ 1 5, mkBarQ 1 5, mkBarQ 2 5]

/-- Profile with only the `USE_PRICE_ABOVE_SMA` gate enabled
(`SMA_N = 20`). -/
def smaOnlyCfg : Cfg := { liveCfg with USE_PRICE_ABOVE_SMA := true }

/-- Three bars whose oldest close is the `nan` sentinel (the source
builds such bars from a close of `0.0` via `closes[i] or math.nan`). -/
def smaNanBars : List Bar :=
  [{ o := RVal.nan, h := RVal.nan, l := RVal.nan, c := RVal.nan, v := 5 },
   mkBarQ 1 5, mkBarQ 1 5]

/-- Profile with only the RSI gate enabled (`RSI_N = 14`). -/
def rsiOnlyCfg : Cfg := { liveCfg with USE_RSI_RANGE := true }

/-- Two bars only (fewer than the 3 `ta_pass` demands). -/
def twoBars : List Bar := [mkBarQ 1 500000, mkBarQ 2 500000]

/-- Two picks with equal change percent where the later one has the
larger volume. -/
def tiePicks : List Pick := [⟨"4001.TW", 2, 100⟩, ⟨"4002.TW", 2, 500⟩]

/-- Three picks: a leader and two tied picks in scan order. -/
def rankPicks : List Pick := [⟨"1101.TW", 3, 7⟩, ⟨"2330.TW", 2, 9⟩, ⟨"2317.TW", 2, 1⟩]

/-- A grouped result with a single listed pick. -/
def onePickGrouped : Grouped := ⟨[⟨"2330.TW", 396 / 100, 3000⟩], [], []⟩

/-- A close series whose trailing entry is null: the last price sits at
index 2, and the second scan (starting at `len-2 = 2`) finds that same
index, not an index strictly before it. -/
def tailNullCloses : List (Option ℚ) := [some 1, none, some 2, none]

/-- Volumes aligned with `tailNullCloses`. -/
def tailNullVols : List (Option ℤ) := [some 10, some 20, some 30, some 40]

/-- The "no data" conditions of the per-instrument pipeline: no bars at
all, a `nan` last close, or no usable previous close
(`prev_c` `None`/`0`) — each makes `pick_rising_stocks_v3` `continue`
without producing a pick. -/
def noQuoteData (bars : List Bar) : Bool :=
  bars.isEmpty || (bars.getLastD default).c.isnan ||
    (match prevClose bars with
     | none => true
     | some pc => decide (pc = 0))

/-- The page text built by the pagination loop from a header and a chunk
of formatted rows: `header + "\n"` followed by each row plus `"\n"`. -/
def pageOf (header : String) (chunk : List String) : String :=
  chunk.foldl (fun pg line => pg ++ line ++ "\n") (header ++ "\n")

set_option maxRecDepth 1000000

/-! ## Helper lemmas -/

theorem pyLen_append : ∀ a b : String, pyLen (a ++ b) = pyLen a + pyLen b
  | ⟨a⟩, ⟨b⟩ => by
    simp only [pyLen, HAppend.hAppend, Append.append, String.append]
    exact List.length_append a b

theorem pyRstrip_len_le (s : String) : pyLen (pyRstrip s) ≤ pyLen s := by
  obtain ⟨l⟩ := s
  have h : (l.reverse.dropWhile Char.isWhitespace).Sublist l.reverse :=
    List.dropWhile_sublist _
  simpa [pyRstrip, pyLen] using h.length_le.trans (by simp)

theorem pageOf_concat (h : String) (acc : List String) (line : String) :
    pageOf h (acc ++ [line]) = pageOf h acc ++ line ++ "\n" := by
  simp [pageOf, List.foldl_append]

theorem pageOf_single (h line : String) :
    h ++ "\n" ++ line ++ "\n" = pageOf h [line] := by
  simp [pageOf]

theorem pyLen_newline : pyLen "\n" = 1 := rfl

theorem isEmpty_false_ne_nil {α : Type} {l : List α} (h : l.isEmpty = false) : l ≠ [] := by
  cases l <;> simp_all

/-- Invariant of the pagination loop: starting from a page holding the
chunk `acc`, every emitted page fits in `maxChars` (given that each row
fits on a fresh page) and is the `rstrip` of a header page holding a
nonempty chunk of at most `maxLines` rows. -/
theorem pagLoop_mem_spec (header : String) (ml mc : ℤ) (hml : 0 < ml) :
    ∀ (rows acc : List String),
      (acc = [] → rows ≠ []) →
      ((acc.length : ℤ) ≤ ml) →
      (acc ≠ [] → (pyLen (pageOf header acc) : ℤ) ≤ mc) →
      (∀ r ∈ rows, (pyLen header : ℤ) + 1 + (pyLen r : ℤ) + 1 ≤ mc) →
      ∀ p ∈ pagLoop header ml mc rows (pageOf header acc) (acc.length : ℤ),
        ((pyLen p : ℤ) ≤ mc) ∧ ∃ chunk, chunk ≠ [] ∧ (chunk.length : ℤ) ≤ ml ∧
          p = pyRstrip (pageOf header chunk)
  | [], acc, hne, hlen, hpg, _, p, hp => by
    simp only [pagLoop, List.mem_singleton] at hp
    subst hp
    have hacc : acc ≠ [] := fun h => (hne h) rfl
    exact ⟨le_trans (by exact_mod_cast pyRstrip_len_le _) (hpg hacc), acc, hacc, hlen, rfl⟩
  | line :: rest, acc, hne, hlen, hpg, hfit, p, hp => by
    simp only [pagLoop] at hp
    have hfl : (pyLen header : ℤ) + 1 + (pyLen line : ℤ) + 1 ≤ mc := hfit line (by simp)
    by_cases hc : ml ≤ (acc.length : ℤ) ∨
        mc < (pyLen (pageOf header acc) : ℤ) + (pyLen line : ℤ) + 1
    · rw [if_pos hc] at hp
      have hacc : acc ≠ [] := by
        intro h
        subst h
        rcases hc with hc | hc
        · simp at hc; omega
        · have h0 : pageOf header [] = header ++ "\n" := rfl
          rw [h0, pyLen_append, pyLen_newline] at hc
          push_cast at hc
          omega
      rcases List.mem_cons.mp hp with hp | hp
      · subst hp
        exact ⟨le_trans (by exact_mod_cast pyRstrip_len_le _) (hpg hacc), acc, hacc, hlen, rfl⟩
      · rw [pageOf_single] at hp
        refine pagLoop_mem_spec header ml mc hml rest [line] (by simp) (by simpa using hml)
          (fun _ => ?_) (fun r hr => hfit r (by simp [hr])) p (by simpa using hp)
        have h1 : pageOf header [line] = header ++ "\n" ++ line ++ "\n" := (pageOf_single _ _).symm
        rw [h1, pyLen_append, pyLen_append, pyLen_append, pyLen_newline]
        push_cast
        omega
    · rw [if_neg hc] at hp
      push_neg at hc
      obtain ⟨hc1, hc2⟩ := hc
      rw [show pageOf header acc ++ line ++ "\n" = pageOf header (acc ++ [line]) from
        (pageOf_concat _ _ _).symm] at hp
      rw [show ((acc.length : ℤ) + 1) = (((acc ++ [line]).length : ℕ) : ℤ) by simp] at hp
      refine pagLoop_mem_spec header ml mc hml rest (acc ++ [line]) (by simp)
        (by simp; omega) (fun _ => ?_) (fun r hr => hfit r (by simp [hr])) p hp
      rw [pageOf_concat, pyLen_append, pyLen_append, pyLen_newline]
      push_cast
      omega

/-- Per-group pagination: every page fits (under the row-fit hypothesis)
and is the header page of a nonempty chunk of at most `maxLines` rows. -/
theorem groupPages_spec (rows : List Pick) (header : String) (ml mc : ℤ) (hml : 0 < ml)
    (hfit : ∀ r ∈ fmt_rows rows, (pyLen header : ℤ) + 1 + (pyLen r : ℤ) + 1 ≤ mc) :
    ∀ p ∈ groupPages rows header ml mc,
      ((pyLen p : ℤ) ≤ mc) ∧ ∃ chunk, chunk ≠ [] ∧ (chunk.length : ℤ) ≤ ml ∧
        p = pyRstrip (pageOf header chunk) := by
  intro p hp
  unfold groupPages at hp
  by_cases hrs : (fmt_rows rows).isEmpty
  · rw [if_pos hrs] at hp
    simp at hp
  · rw [if_neg (by simp_all)] at hp
    rw [show header ++ "\n" = pageOf header [] from rfl] at hp
    rw [show (0 : ℤ) = ((([] : List String).length : ℕ) : ℤ) by simp] at hp
    exact pagLoop_mem_spec header ml mc hml (fmt_rows rows) []
      (fun _ => isEmpty_false_ne_nil (by simpa using hrs)) (by simpa using hml.le)
      (fun h => absurd rfl h) hfit p hp

/-- The first component of `compute_volume_features` is the last bar's
close. -/
theorem cvf_fst (bars : List Bar) (n : ℤ) (h : bars.isEmpty = false) :
    (compute_volume_features bars n).1 = (bars.getLastD default).c := by
  unfold compute_volume_features
  rw [if_neg (by simp [h])]

theorem rankLe_trans : ∀ a b c : Pick,
    rankLe a b = true → rankLe b c = true → rankLe a c = true := by
  intro a b c hab hbc
  simp only [rankLe, decide_eq_true_eq] at *
  exact le_trans hbc hab

theorem rankLe_total : ∀ a b : Pick, (rankLe a b || rankLe b a) = true := by
  intro a b
  simp only [rankLe, Bool.or_eq_true, decide_eq_true_eq]
  exact le_total b.chg a.chg

/-- If the backward scan finds nothing, every entry is null. -/
theorem findBack_none : ∀ (cs : List (Option ℚ)), findBack cs = none →
    ∀ j, j < cs.length → cs[j]? = some none
  | [], _, j, hj => by simp at hj
  | c :: rest, h, j, hj => by
    cases hr : findBack rest with
    | some iq => simp [findBack, hr] at h
    | none =>
      have hc : c = none := by
        cases c with
        | none => rfl
        | some q => simp [findBack, hr] at h
      cases j with
      | zero => simp [hc]
      | succ j' =>
        have := findBack_none rest hr j' (by simpa using hj)
        simpa using this

/-- `findBack` returns the first non-null close met when scanning
backward from the end: the entry at the returned index is that close,
and every entry strictly after it is null. -/
theorem findBack_spec : ∀ (cs : List (Option ℚ)) (i : ℕ) (q : ℚ), findBack cs = some (i, q) →
    cs[i]? = some (some q) ∧ ∀ j, i < j → j < cs.length → cs[j]? = some none
  | [], i, q, h => by simp [findBack] at h
  | c :: rest, i, q, h => by
    cases hr : findBack rest with
    | some iq =>
      obtain ⟨i', q'⟩ := iq
      simp only [findBack, hr] at h
      obtain ⟨hi, hq⟩ : i' + 1 = i ∧ q' = q := by
        constructor <;> [exact congrArg Prod.fst (Option.some.inj h);
          exact congrArg Prod.snd (Option.some.inj h)]
      subst hi; subst hq
      obtain ⟨ih1, ih2⟩ := findBack_spec rest i' q' hr
      refine ⟨by simpa using ih1, ?_⟩
      intro j hj1 hj2
      cases j with
      | zero => omega
      | succ j' =>
        have := ih2 j' (by omega) (by simpa using hj2)
        simpa using this
    | none =>
      cases c with
      | none => simp [findBack, hr] at h
      | some q0 =>
        simp only [findBack, hr, Option.map_some] at h
        obtain ⟨hi, hq⟩ : (0 : ℕ) = i ∧ q0 = q := by
          constructor <;> [exact congrArg Prod.fst (Option.some.inj h);
            exact congrArg Prod.snd (Option.some.inj h)]
        subst hi; subst hq
        refine ⟨by simp, ?_⟩
        intro j hj1 hj2
        cases j with
        | zero => omega
        | succ j' =>
          have := findBack_none rest hr j' (by simpa using hj2)
          simpa using this

/-- Evaluation of `fetch_change_pct_and_volume` on a single usable
series: the change is computed from the backward-scanned last price `q`
and the code's prior close `pc`, the volume is read at the last-price
index. -/
theorem fetch_single (cs : List (Option ℚ)) (vs : List (Option ℤ)) (i : ℕ) (q pc : ℚ)
    (h1 : findBack cs = some (i, q)) (h2 : lastCloseScan cs = some pc) (h3 : pc ≠ 0) :
    fetch_change_pct_and_volume [(cs, vs)] = (pyRound2 ((q - pc) / pc * 100), volAt vs i) := by
  unfold fetch_change_pct_and_volume fetchLoop
  simp only [h1, h2]
  rw [if_pos ⟨by simp, by simp, by simp [h3]⟩]
  simp [h3]

/-- The dedup stage of `load_watchlist`'s `ALL` branch never emits an
element twice, nor one already in `seen`. -/
theorem dedupLoop_nodup : ∀ (codes seen : List String),
    (dedupLoop codes seen).Nodup ∧ ∀ u ∈ dedupLoop codes seen, ¬ seen.contains u
  | [], _ => by simp [dedupLoop]
  | c :: rest, seen => by
    rw [dedupLoop]
    split
    next hkeep =>
      obtain ⟨ih1, ih2⟩ := dedupLoop_nodup rest (pyUpper c :: seen)
      refine ⟨List.nodup_cons.mpr ⟨fun hmem => ?_, ih1⟩, ?_⟩
      · exact ih2 _ hmem (by simp)
      · intro u hu hseen
        rcases List.mem_cons.mp hu with hu | hu
        · subst hu
          have := (Bool.and_eq_true _ _).mp hkeep
          simp [this.2] at hseen
          exact absurd hseen (by simpa using this.2)
        · refine ih2 u hu ?_
          have hm : u ∈ seen := by simpa using hseen
          simp [List.contains_cons]
          exact Or.inr hm
    next =>
      obtain ⟨ih1, ih2⟩ := dedupLoop_nodup rest seen
      exact ⟨ih1, ih2⟩

/-- The dedup stage preserves first-occurrence order: its output is a
sublist of the upper-cased input. -/
theorem dedupLoop_sublist : ∀ (codes seen : List String),
    (dedupLoop codes seen).Sublist (codes.map pyUpper)
  | [], _ => by simp [dedupLoop]
  | c :: rest, seen => by
    rw [dedupLoop]
    split
    · exact (dedupLoop_sublist rest _).cons₂ _
    · exact (dedupLoop_sublist rest _).cons _

/-! ## Claims -/

/-- C1: for every threshold profile, the Screening Engine accepts an
instrument as a Pick only if its change percent is at least the
profile's minimum change percent and its volume at least the profile's
minimum volume; and an instrument with no usable quote data (no bars, a
`nan` last close, or a missing/zero previous close) is rejected. -/
theorem c1_baseline_gate (code : String) (bars : List Bar) (th : Cfg) (p : Pick) :
    (pickDecision code bars th = some p →
      th.MIN_CHANGE_PCT ≤ p.chg ∧ th.MIN_VOLUME ≤ p.vol) ∧
    (noQuoteData bars = true → pickDecision code bars th = none) := by
  constructor
  · intro h
    unfold pickDecision at h
    split at h
    · exact Option.noConfusion h
    next he =>
      dsimp only at h
      split at h
      · exact Option.noConfusion h
      next tc hfc =>
        split at h
        · exact Option.noConfusion h
        next pc hpc =>
          split at h
          · exact Option.noConfusion h
          next hpz =>
            split at h
            next hbase => exact Option.noConfusion h
            next hbase =>
              split at h
              · exact Option.noConfusion h
              next hspike =>
                split at h
                · exact Option.noConfusion h
                next hyday =>
                  split at h
                  next hta =>
                    injection h with h
                    subst h
                    push_neg at hbase
                    exact ⟨hbase.1, hbase.2⟩
                  · exact Option.noConfusion h
  · intro hnd
    by_cases he : bars.isEmpty = true
    · unfold pickDecision
      rw [if_pos he]
    · have he' : bars.isEmpty = false := by simpa using he
      unfold pickDecision
      rw [if_neg (by simp [he'])]
      dsimp only
      unfold noQuoteData at hnd
      simp only [he', Bool.false_or] at hnd
      rcases (Bool.or_eq_true _ _).mp hnd with hA | hB
      · have hnan : (compute_volume_features bars th.VOL_MA_N).1 = RVal.nan := by
          rw [cvf_fst bars _ he']
          cases hcc : (bars.getLastD default).c with
          | nan => rfl
          | fin q => rw [hcc] at hA; simp [RVal.isnan] at hA
        rw [hnan]
      · cases hf1 : (compute_volume_features bars th.VOL_MA_N).1 with
        | nan => rfl
        | fin tc =>
          cases hpc : prevClose bars with
          | none => rfl
          | some pc =>
            rw [hpc] at hB
            have hz : pc = 0 := of_decide_eq_true hB
            dsimp only
            rw [if_pos hz]

/-- C1 witness: the spec's scenario bars (closes 100, 102, 101, 105;
volumes 1000, 1200, 900, 3000) with thresholds 2.0 / 2000 are accepted
with change 3.96 ≥ 2 and volume 3000 ≥ 2000; an instrument with no bars
at all is rejected. -/
theorem c1_baseline_gate_witness :
    scenarioCfg.MIN_CHANGE_PCT ≤ (99 / 25 : ℚ) ∧ scenarioCfg.MIN_VOLUME ≤ (3000 : ℤ) ∧
    pickDecision "2330.TW" [] scenarioCfg = none := by
  have hacc := (c1_baseline_gate "2330.TW" scenarioBars scenarioCfg
    ⟨"2330.TW", 99 / 25, 3000⟩).1 (by with_unfolding_all rfl)
  have hrej := (c1_baseline_gate "2330.TW" [] scenarioCfg ⟨"2330.TW", 0, 0⟩).2 (by rfl)
  exact ⟨hacc.1, hacc.2, hrej⟩

/-- C2 counterexample: the claim says an indicator gate whose input has
insufficient history (in particular an N-period SMA with fewer than N
bars) rejects the instrument.  With only the price-above-SMA gate
enabled (`SMA_N = 20`) and just three bars, the source's `sma` is not
the undefined sentinel but a partial-window average (4/3), and
`ta_pass` accepts the instrument. -/
theorem c2_sma_insufficient_history_cex :
    smaOnlyCfg.USE_PRICE_ABOVE_SMA = true ∧
    (smaShortBars.length : ℤ) < smaOnlyCfg.SMA_N ∧
    (lastR (sma (smaShortBars.map Bar.c) smaOnlyCfg.SMA_N)).isnan = false ∧
    ta_pass smaShortBars smaOnlyCfg = some true :=
  ⟨rfl, by decide, by with_unfolding_all rfl, by with_unfolding_all rfl⟩

/-- C2 amended: gates fail closed on the `nan` sentinel itself — if the
last SMA value is `nan` the SMA gate rejects, and if the last RSI value
is `nan` (which insufficient history does produce for RSI) the RSI gate
never lets the instrument pass; but insufficient history alone does not
make the SMA undefined, since `sma` averages the available window. -/
theorem c2_nan_fail_closed_amended (bars : List Bar) (ta : Cfg) :
    (3 ≤ bars.length → ta.USE_PRICE_ABOVE_SMA = true →
      (lastR (sma (bars.map Bar.c) ta.SMA_N)).isnan = true →
      ta_pass bars ta = some false) ∧
    (3 ≤ bars.length → ta.USE_RSI_RANGE = true →
      (∀ r, rsi (bars.map Bar.c) ta.RSI_N = some r → (lastR r).isnan = true) →
      ta_pass bars ta ≠ some true) := by
  constructor
  · intro hlen huse hnan
    have h3 : ¬ bars.length < 3 := by omega
    simp only [ta_pass, if_neg h3]
    have hgate : gatePriceAboveSma (bars.map Bar.c) ta = some false := by
      simp only [gatePriceAboveSma, huse, if_true]
      rw [if_pos]
      rw [hnan]
      simp
    simp [gateSeq, hgate]
  · intro hlen huse hnan
    have h3 : ¬ bars.length < 3 := by omega
    simp only [ta_pass, if_neg h3]
    have hg : gateRsi (bars.map Bar.c) ta ≠ some true := by
      simp only [gateRsi, huse, if_true]
      cases hr : rsi (bars.map Bar.c) ta.RSI_N with
      | none => simp
      | some r =>
        have := hnan r hr
        simp [this]
    cases h1 : gatePriceAboveSma (bars.map Bar.c) ta with
    | none => simp [gateSeq]
    | some b1 =>
      cases b1 with
      | false => simp [gateSeq]
      | true =>
        simp only [gateSeq]
        cases h2 : gatePriceAboveEma (bars.map Bar.c) ta with
        | none => simp [gateSeq]
        | some b2 =>
          cases b2 with
          | false => simp [gateSeq]
          | true =>
            simp only [gateSeq]
            cases hg' : gateRsi (bars.map Bar.c) ta with
            | none => simp [gateSeq]
            | some b3 =>
              cases b3 with
              | false => simp [gateSeq]
              | true => exact absurd hg' hg

/-- C2 amended witness: three bars whose oldest close is `nan` make the
last SMA value `nan` and the SMA gate rejects; three constant-close bars
leave the 14-period RSI undefined (`nan`) and the RSI gate rejects. -/
theorem c2_nan_fail_closed_witness :
    ta_pass smaNanBars smaOnlyCfg = some false ∧
    ta_pass [mkBarQ 1 5, mkBarQ 1 5, mkBarQ 1 5] rsiOnlyCfg ≠ some true :=
  ⟨(c2_nan_fail_closed_amended smaNanBars smaOnlyCfg).1 (by decide) rfl (by rfl),
   (c2_nan_fail_closed_amended [mkBarQ 1 5, mkBarQ 1 5, mkBarQ 1 5] rsiOnlyCfg).2
     (by decide) rfl
     (fun r hr => by
       rw [show rsi ([mkBarQ 1 5, mkBarQ 1 5, mkBarQ 1 5].map Bar.c) rsiOnlyCfg.RSI_N =
         some [RVal.nan, RVal.nan, RVal.nan] from rfl] at hr
       cases hr
       rfl)⟩

/-- C3 counterexample: the ranking sorts only by change percent
(stable); two picks with equal change percent stay in scan order, so the
pick with the larger volume is NOT ordered first as the claim states. -/
theorem c3_tie_order_cex :
    rankSort tiePicks = tiePicks ∧
    ¬ (rankSort tiePicks).Pairwise
        (fun a b => b.chg < a.chg ∨ (a.chg = b.chg ∧ b.vol ≤ a.vol)) := by
  have hsort : rankSort tiePicks = tiePicks := by
    unfold rankSort
    apply List.mergeSort_of_sorted
    simp [tiePicks, List.pairwise_cons, rankLe]
  refine ⟨hsort, ?_⟩
  rw [hsort]
  intro hpw
  rcases List.pairwise_cons.mp hpw with ⟨h12, _⟩
  have := h12 ⟨"4002.TW", 2, 500⟩ (by simp [tiePicks])
  simp [tiePicks] at this

/-- C3 amended: within each group the ranking is a permutation of the
accepted picks, sorted by change percent descending; ties are broken by
the stable sort's input (scan) order, not by volume — any two picks
appearing consecutively-ordered in the input with non-increasing change
percent keep their relative order. -/
theorem c3_rank_amended (l : List Pick) :
    (rankSort l).Perm l ∧
    (rankSort l).Pairwise (fun a b => b.chg ≤ a.chg) ∧
    ∀ a b : Pick, b.chg ≤ a.chg → [a, b].Sublist l → [a, b].Sublist (rankSort l) := by
  refine ⟨List.mergeSort_perm l rankLe, ?_, ?_⟩
  · have h := List.sorted_mergeSort rankLe_trans rankLe_total l
    exact h.imp (fun hab => by simpa [rankLe, decide_eq_true_eq] using hab)
  · intro a b hab hsub
    exact List.pair_sublist_mergeSort rankLe_trans rankLe_total
      (by simpa [rankLe] using hab) hsub

/-- C3 amended witness: in a list with a leader and two equal-change
picks, the ranking is a permutation and the tied pair keeps scan order. -/
theorem c3_rank_amended_witness :
    (rankSort rankPicks).Perm rankPicks ∧
    ([⟨"2330.TW", 2, 9⟩, ⟨"2317.TW", 2, 1⟩] : List Pick).Sublist (rankSort rankPicks) := by
  refine ⟨(c3_rank_amended rankPicks).1, ?_⟩
  exact (c3_rank_amended rankPicks).2.2 _ _ (by norm_num) ((List.Sublist.refl _).cons _)

/-- C4 counterexample: the claim says an identical report on the same
calendar day is suppressed the second time.  The push step of
`do_scan_and_push` keeps no (day, hash) state: two invocations with the
same day and the same page deliver the page both times — the second
delivery is not the empty (suppressed) one. -/
theorem c4_same_day_redelivery_cex :
    pushRuns "U1" [("2025-01-01 09:00", ["pageA"]), ("2025-01-01 09:00", ["pageA"])] =
      [["pageA"], ["pageA"]] ∧
    (["pageA"] : List String) ≠ [] :=
  ⟨rfl, by decide⟩

/-- C4 amended: `do_scan_and_push` performs no deduplication at all —
with a configured user id, every invocation unconditionally delivers its
pages (or the one fallback message when there are none); no delivery is
ever suppressed, regardless of day or content. -/
theorem c4_no_dedup_amended (u : String) (runs : List (String × List String)) (hu : u ≠ "") :
    pushRuns u runs = runs.map (fun r => if r.2.isEmpty then [noPickMsg r.1] else r.2) ∧
    ∀ d ∈ pushRuns u runs, d ≠ [] := by
  have hstep : ∀ now msgs, (pushStep u now msgs).1 =
      if msgs.isEmpty then [noPickMsg now] else msgs := by
    intro now msgs
    unfold pushStep
    rw [if_neg hu]
    split <;> rfl
  constructor
  · unfold pushRuns
    exact List.map_congr_left fun r _ => hstep r.1 r.2
  · intro d hd
    unfold pushRuns at hd
    obtain ⟨r, _, hdr⟩ := List.mem_map.mp hd
    rw [← hdr, hstep]
    split
    · simp
    next hne => exact isEmpty_false_ne_nil (by simpa using hne)

/-- C4 amended witness: one run with one page delivers exactly that
page, and the delivery is nonempty. -/
theorem c4_no_dedup_witness :
    pushRuns "U" [("d", ["m"])] =
      [("d", ["m"])].map (fun r => if r.2.isEmpty then [noPickMsg r.1] else r.2) ∧
    (["m"] : List String) ≠ [] :=
  ⟨(c4_no_dedup_amended "U" [("d", ["m"])] (by decide)).1,
   (c4_no_dedup_amended "U" [("d", ["m"])] (by decide)).2 ["m"] (by decide)⟩

/-- C5 counterexample: on the series `[1, null, 2, null]` the last price
is found at index 2, but the prior-close scan restarts at index
`len - 2 = 2` and selects that same close 2 — not the close 1 strictly
before the last-price index as the claim states — so the reported change
is 0% instead of 100%. -/
theorem c5_prior_close_cex :
    lastCloseScan tailNullCloses = some 2 ∧
    specPriorClose tailNullCloses = some 1 ∧
    lastCloseScan tailNullCloses ≠ specPriorClose tailNullCloses ∧
    fetch_change_pct_and_volume [(tailNullCloses, tailNullVols)] = (0, 30) :=
  ⟨by rfl, by rfl, by with_unfolding_all decide, by with_unfolding_all rfl⟩

/-- C5 amended: the last price is the first non-null close scanning
backward from the end and the volume is taken at that same index, as the
claim says; but the prior close is the first non-null close scanning
backward from index `length - 2` of the series, which need not lie
strictly before the last-price index. -/
theorem c5_backward_scan_amended (cs : List (Option ℚ)) (vs : List (Option ℤ)) (i : ℕ)
    (q pc : ℚ) :
    (findBack cs = some (i, q) →
      cs[i]? = some (some q) ∧ ∀ j, i < j → j < cs.length → cs[j]? = some none) ∧
    (findBack cs = some (i, q) → lastCloseScan cs = some pc → pc ≠ 0 →
      fetch_change_pct_and_volume [(cs, vs)] =
        (pyRound2 ((q - pc) / pc * 100), volAt vs i)) :=
  ⟨findBack_spec cs i q, fun h1 h2 h3 => fetch_single cs vs i q pc h1 h2 h3⟩

/-- C5 amended witness: on `[1, null, 2, null]` the last price 2 sits at
index 2 with only nulls after it, and the fetch returns the rounded
change computed against the prior close 2 with the volume at index 2. -/
theorem c5_backward_scan_witness :
    tailNullCloses[2]? = some (some 2) ∧ tailNullCloses[3]? = some none ∧
    fetch_change_pct_and_volume [(tailNullCloses, tailNullVols)] =
      (pyRound2 ((2 - 2) / 2 * 100), volAt tailNullVols 2) := by
  have h := c5_backward_scan_amended tailNullCloses tailNullVols 2 2 2
  exact ⟨(h.1 (by rfl)).1, (h.1 (by rfl)).2 3 (by omega) (by decide),
    h.2 (by rfl) (by rfl) (by norm_num)⟩

/-- C6 counterexample: in explicit-list mode `load_watchlist` does not
deduplicate — `"2330,2317,2330"` keeps the duplicate — and the claim's
scenario `"AAA,BBB,AAA"` does not resolve to `[AAA, BBB]`: non-4-digit
tokens are dropped entirely and the fallback `["2330.TW"]` is returned. -/
theorem c6_explicit_duplicates_cex :
    load_watchlist_explicit "AAA,BBB,AAA" = ["2330.TW"] ∧
    load_watchlist_explicit "AAA,BBB,AAA" ≠ ["AAA", "BBB"] ∧
    load_watchlist_explicit "2330,2317,2330" = ["2330.TW", "2317.TW", "2330.TW"] ∧
    ¬ (load_watchlist_explicit "2330,2317,2330").Nodup := by
  decide

/-- C6 amended: only the all-markets branch deduplicates — its dedup
stage returns each upper-cased identifier at most once, in
first-occurrence order (a sublist of the input), and never an empty
universe; explicit-list mode keeps duplicates as scanned. -/
theorem c6_dedup_amended :
    (∀ codes : List String, (dedupLoop codes []).Nodup) ∧
    (∀ codes : List String, (dedupLoop codes []).Sublist (codes.map pyUpper)) ∧
    (∀ codes : List String, load_watchlist_all_dedup codes ≠ []) ∧
    load_watchlist_explicit "2330,2317,2330" = ["2330.TW", "2317.TW", "2330.TW"] := by
  refine ⟨fun codes => (dedupLoop_nodup codes []).1, fun codes => dedupLoop_sublist codes [],
    fun codes => ?_, by decide⟩
  unfold load_watchlist_all_dedup
  dsimp only
  split
  · simp
  next h => exact isEmpty_false_ne_nil (by simpa using h)

/-- C7 counterexample: with the positive limits `max_lines = 5`,
`max_chars = 3`, the single-pick report contains a page longer than
`max_chars` — the claim's bound fails for configurations too small to
hold a header and one row. -/
theorem c7_page_overflow_cex :
    (0 : ℤ) < 5 ∧ (0 : ℤ) < 3 ∧
    ((format_grouped_messages onePickGrouped "d" 5 3 "A" "B" "C").any
      fun p => decide ((3 : ℤ) < (pyLen p : ℤ))) = true :=
  ⟨by decide, by decide, by with_unfolding_all rfl⟩

/-- C7 amended: provided every formatted row fits on a fresh page
(header + newline + row + newline within `max_chars`), no page exceeds
`max_chars`; every page consists of one group's header line followed by
a nonempty chunk of at most `max_lines` of that group's rows (then
right-stripped). -/
theorem c7_pagination_amended (g : Grouped) (title eL eO eE : String) (ml mc : ℤ)
    (hml : 0 < ml)
    (hfitL : ∀ r ∈ fmt_rows g.LISTED,
      (pyLen (mkHeader title eL "上市") : ℤ) + 1 + (pyLen r : ℤ) + 1 ≤ mc)
    (hfitO : ∀ r ∈ fmt_rows g.OTC,
      (pyLen (mkHeader title eO "上櫃") : ℤ) + 1 + (pyLen r : ℤ) + 1 ≤ mc)
    (hfitE : ∀ r ∈ fmt_rows g.ETF,
      (pyLen (mkHeader title eE "ETF") : ℤ) + 1 + (pyLen r : ℤ) + 1 ≤ mc) :
    ∀ p ∈ format_grouped_messages g title ml mc eL eO eE,
      ((pyLen p : ℤ) ≤ mc) ∧ ∃ hd chunk,
        (hd = mkHeader title eL "上市" ∨ hd = mkHeader title eO "上櫃" ∨
         hd = mkHeader title eE "ETF") ∧
        chunk ≠ [] ∧ (chunk.length : ℤ) ≤ ml ∧ p = pyRstrip (pageOf hd chunk) := by
  intro p hp
  unfold format_grouped_messages at hp
  rcases List.mem_append.mp hp with hp | hp
  rcases List.mem_append.mp hp with hp | hp
  · obtain ⟨h1, chunk, h2, h3, h4⟩ := groupPages_spec _ _ _ _ hml hfitL p hp
    exact ⟨h1, _, chunk, Or.inl rfl, h2, h3, h4⟩
  · obtain ⟨h1, chunk, h2, h3, h4⟩ := groupPages_spec _ _ _ _ hml hfitO p hp
    exact ⟨h1, _, chunk, Or.inr (Or.inl rfl), h2, h3, h4⟩
  · obtain ⟨h1, chunk, h2, h3, h4⟩ := groupPages_spec _ _ _ _ hml hfitE p hp
    exact ⟨h1, _, chunk, Or.inr (Or.inr rfl), h2, h3, h4⟩

/-- C7 amended witness: with the defaults `max_lines = 25`,
`max_chars = 1800` every page of the single-pick report fits within
1800 characters. -/
theorem c7_pagination_witness :
    ((format_grouped_messages onePickGrouped "2025-01-01 09:00" 25 1800 "L" "O" "E").all
      fun p => decide ((pyLen p : ℤ) ≤ 1800)) = true := by
  apply List.all_eq_true.mpr
  intro p hp
  exact decide_eq_true (c7_pagination_amended onePickGrouped "2025-01-01 09:00" "L" "O" "E"
    25 1800 (by decide) (by with_unfolding_all decide) (by with_unfolding_all decide)
    (by with_unfolding_all decide) p hp).1

/-- C8 counterexample: with no accepted picks the Reporter
(`format_grouped_messages`) returns the empty page list — not the single
informational page the claim requires. -/
theorem c8_empty_pages_cex :
    format_grouped_messages ⟨[], [], []⟩ "2025-01-01 09:00" 25 1800 "L" "O" "E" = [] ∧
    (format_grouped_messages ⟨[], [], []⟩ "2025-01-01 09:00" 25 1800 "L" "O" "E").length ≠ 1 := by
  decide

/-- C8 amended: when no group has picks the Reporter returns an empty
page list, and it is `do_scan_and_push` that then sends exactly one
fallback message containing the timestamp and a no-matches notice
(without the active thresholds). -/
theorem c8_empty_report_amended :
    (∀ (title eL eO eE : String) (ml mc : ℤ),
      format_grouped_messages ⟨[], [], []⟩ title ml mc eL eO eE = []) ∧
    (∀ u now_s : String, u ≠ "" → pushStep u now_s [] = ([noPickMsg now_s], "no-picks")) := by
  constructor
  · intro title eL eO eE ml mc
    rfl
  · intro u now_s hu
    unfold pushStep
    rw [if_neg hu]
    rfl

/-- C8 amended witness: a concrete empty scan produces no pages and one
fallback push. -/
theorem c8_empty_report_witness :
    format_grouped_messages ⟨[], [], []⟩ "t" 25 1800 "A" "B" "C" = [] ∧
    pushStep "U" "t" [] = ([noPickMsg "t"], "no-picks") :=
  ⟨c8_empty_report_amended.1 "t" "A" "B" "C" 25 1800, c8_empty_report_amended.2 "U" "t" (by decide)⟩

/-- C9: `ta_pass` returns `False` whenever fewer than 3 bars are
available, for every configuration (even with all indicator gates
disabled), and consequently the per-instrument pipeline rejects every
instrument with fewer than 3 daily bars regardless of the profile. -/
theorem c9_min_bars (code : String) (bars : List Bar) (th : Cfg) (h : bars.length < 3) :
    ta_pass bars th = some false ∧ pickDecision code bars th = none := by
  have hta : ta_pass bars th = some false := by
    unfold ta_pass
    rw [if_pos h]
  refine ⟨hta, ?_⟩
  unfold pickDecision
  split
  · rfl
  next he =>
    dsimp only
    split
    · rfl
    next tc hfc =>
      split
      · rfl
      next pc hpc =>
        split
        · rfl
        next hpz =>
          split
          · rfl
          next hbase =>
            split
            · rfl
            next hspike =>
              split
              · rfl
              next hyday =>
                split
                next hta2 => rw [hta] at hta2; simp at hta2
                · rfl

/-- C9 witness: two bars that would pass every threshold are still
rejected — `ta_pass` is false and the pipeline produces no pick. -/
theorem c9_min_bars_witness :
    ta_pass twoBars liveCfg = some false ∧ pickDecision "2330.TW" twoBars liveCfg = none :=
  c9_min_bars "2330.TW" twoBars liveCfg (by decide)

/-- C10: in explicit-list mode `load_watchlist` never returns an empty
universe, and when every comma-separated token fails validation it
returns exactly the fallback `["2330.TW"]`. -/
theorem c10_explicit_fallback (wl : String) :
    load_watchlist_explicit wl ≠ [] ∧
    ((∀ c0 ∈ pySplit wl ',', explicitToken c0 = none) →
      load_watchlist_explicit wl = ["2330.TW"]) := by
  constructor
  · unfold load_watchlist_explicit
    dsimp only
    split
    · simp
    next h => exact isEmpty_false_ne_nil (by simpa using h)
  · intro hall
    unfold load_watchlist_explicit
    dsimp only
    have h0 : (pySplit wl ',').filterMap explicitToken = [] := by
      simp only [List.filterMap_eq_nil_iff]
      exact hall
    rw [h0]
    rfl

/-- C10 witness: every token of `"AAA,BBB,AAA"` fails validation, and
the resolved universe is exactly the fallback `["2330.TW"]`. -/
theorem c10_explicit_fallback_witness :
    load_watchlist_explicit "AAA,BBB,AAA" ≠ [] ∧
    load_watchlist_explicit "AAA,BBB,AAA" = ["2330.TW"] :=
  ⟨(c10_explicit_fallback "AAA,BBB,AAA").1, (c10_explicit_fallback "AAA,BBB,AAA").2 (by decide)⟩
